import Mathlib

/-!
Verification of the tool-invocation lifecycle manager of the
`cf_ai_sandy` conversational agent (Cloudflare Workers, `server.ts`,
`tools.ts`, `lib/google-calendar.ts`, `ToolInvocationCard`).

Shallow embedding: pure fragments of the TypeScript source are
translated into Lean functions; asynchronous executors whose underlying
side-effecting operation may throw are modelled by passing the
operation's outcome as an `Except String _` argument; counting of
executor/schedule invocations is made explicit in the return value.
-/

namespace CfAiSandy

/-! ## Data model (spec section 3, `UIMessage` parts) -/

/-- State of a tool invocation part, `state` field of a `ToolUIPart`. -/
inductive InvState
  | inputStreaming
  | inputAvailable
  | outputAvailable
deriving DecidableEq, Repr

/-- A tool-invocation part of a message. `output` is `some` exactly when
the call has produced a result. -/
structure ToolInvocation where
  toolCallId : String
  toolName : String
  state : InvState
  input : String
  output : Option String
deriving DecidableEq, Repr

/-- A message part: plain text or a tool invocation. -/
inductive Part
  | text (content : String)
  | toolInv (inv : ToolInvocation)
deriving DecidableEq, Repr

/-- Message role. -/
inductive Role
  | user
  | assistant
  | system
deriving DecidableEq, Repr

/-- A chat message: id, role, ordered parts, optional creation time
(the `metadata.createdAt` field, abstracted to a counter). -/
structure Message where
  id : String
  role : Role
  parts : List Part
  createdAt : Option Nat
deriving DecidableEq, Repr

/-! ## Tool registry (`tools.ts`: `tools` and `executions`) -/

/-- One entry of the `tools` object of `tools.ts`: the tool's name and
whether the `tool({...})` literal carries an `execute` function. -/
structure ToolReg where
  name : String
  hasExecute : Bool
deriving DecidableEq, Repr

/-- The `tools` object of `tools.ts`, in declaration order.
`getWeatherInformation` and `createCalendarEvent` omit `execute`
(the comments in the source note that omitting it requires human
confirmation); the other four carry a bound `execute`. -/
def tools : List ToolReg :=
  [⟨"getWeatherInformation", false⟩,
   ⟨"getLocalTime", true⟩,
   ⟨"scheduleTask", true⟩,
   ⟨"getScheduledTasks", true⟩,
   ⟨"cancelScheduledTask", true⟩,
   ⟨"createCalendarEvent", false⟩]

/-- The keys of the `executions` object of `tools.ts` (the
confirmation-required implementations), in declaration order. -/
def executionsNames : List String :=
  ["getWeatherInformation", "createCalendarEvent"]

/-- The names of the autonomous tools as the claim lists them. -/
def autonomousNames : List String :=
  ["getLocalTime", "scheduleTask", "getScheduledTasks", "cancelScheduledTask"]

/-! ## `getLocalTime` executor (`tools.ts`) -/

/-- The `execute` function of the `getLocalTime` tool: logs and returns
the literal `"10am"`. -/
def getLocalTime_execute (location : String) : String :=
  let _ := location
  "10am"

/-! ## `scheduleTask` executor (`tools.ts`) -/

/-- The `when` argument of the `scheduleTask` executor, an instance of
the (extended) `scheduleSchema` discriminated union: `type` is the
discriminant string and the payload fields are present depending on it,
exactly as in the zod schema. -/
structure ScheduleInput where
  type : String
  date : Option String
  delayInSeconds : Option Nat
  cron : Option String
deriving DecidableEq, Repr

/-- Rendering of an optional TypeScript value inside a template string
(`undefined` prints as `"undefined"`). -/
def tsShow : Option String → String
  | some s => s
  | none => "undefined"

/-- Rendering of an optional numeric TypeScript value inside a template
string. -/
def tsShowNat : Option Nat → String
  | some n => toString n
  | none => "undefined"

/-- The `execute` function of `scheduleTask`. The throwing of a
JavaScript exception is modelled by `Except.error`; the single
`agent!.schedule(...)` call (whose own success or thrown error is the
`scheduleResult` parameter) is counted in the second component of the
result, so that zero means the scheduler was never invoked.
Faithful to the source:
* `when.type === "no-schedule"` returns `"Not a valid schedule input"`
  before anything else happens;
* otherwise `input` is selected by the `scheduled`/`delayed`/`cron`
  ternary chain, whose final branch calls the `throwError` helper
  (an exception that is not caught by the later `try`);
* the description gains a `" (Due: …)"` suffix when `dueDate` is given;
* the `try { agent!.schedule(...) } catch` turns a thrown scheduling
  error into the returned string `"Error scheduling task: …"`;
* on success the response quotes the type and the chosen input, plus a
  due-date suffix when `dueDate` is given. -/
def scheduleTask_execute (dueDate : Option String) (whenArg : ScheduleInput)
    (description : String) (scheduleResult : Except String Unit) :
    Except String String × Nat :=
  if whenArg.type = "no-schedule" then
    (Except.ok "Not a valid schedule input", 0)
  else
    let inputSel : Except String String :=
      if whenArg.type = "scheduled" then Except.ok (tsShow whenArg.date)
      else if whenArg.type = "delayed" then Except.ok (tsShowNat whenArg.delayInSeconds)
      else if whenArg.type = "cron" then Except.ok (tsShow whenArg.cron)
      else Except.error "not a valid schedule input"
    match inputSel with
    | Except.error e => (Except.error e, 0)
    | Except.ok input =>
      let taskDescription :=
        match dueDate with
        | some dd => description ++ " (Due: " ++ dd ++ ")"
        | none => description
      let _ := taskDescription
      match scheduleResult with
      | Except.error e => (Except.ok ("Error scheduling task: Error: " ++ e), 1)
      | Except.ok _ =>
        let response := "Task scheduled for type \"" ++ whenArg.type ++ "\": " ++ input
        match dueDate with
        | some dd => (Except.ok (response ++ " with due date: " ++ dd), 1)
        | none => (Except.ok response, 1)

/-! ## `getScheduledTasks` and `cancelScheduledTask` executors (`tools.ts`) -/

/-- The `execute` function of `getScheduledTasks`. The underlying
`agent!.getSchedules()` call is the `tasksResult` parameter (`none`
models a nullish return, `Except.error` a thrown error); the executor
returns either an informational string or the task list itself. -/
def getScheduledTasks_execute (tasksResult : Except String (Option (List String))) :
    Except String (String ⊕ List String) :=
  match tasksResult with
  | Except.ok tasks =>
    match tasks with
    | none => Except.ok (Sum.inl "No scheduled tasks found.")
    | some ts =>
      if ts.length = 0 then Except.ok (Sum.inl "No scheduled tasks found.")
      else Except.ok (Sum.inr ts)
  | Except.error e =>
    Except.ok (Sum.inl ("Error listing scheduled tasks: Error: " ++ e))

/-- The `execute` function of `cancelScheduledTask`. The underlying
`agent!.cancelSchedule(taskId)` call is the `cancelResult` parameter. -/
def cancelScheduledTask_execute (taskId : String)
    (cancelResult : Except String Unit) : Except String String :=
  match cancelResult with
  | Except.ok _ =>
    Except.ok ("Task " ++ taskId ++ " has been successfully canceled.")
  | Except.error e =>
    Except.ok ("Error canceling task " ++ taskId ++ ": Error: " ++ e)

/-! ## `executions.createCalendarEvent` (`tools.ts`) -/

/-- The Google credential triple read from `process.env` inside
`executions.createCalendarEvent`; `none` for the whole record models the
absence of `process.env`. -/
structure GoogleEnv where
  clientId : Option String
  clientSecret : Option String
  refreshToken : Option String
deriving DecidableEq, Repr

/-- The message of the error thrown when a credential is missing
(`tools.ts`, the concatenated string literal). -/
def credentialsMissingMsg : String :=
  "Google Calendar credentials not found. " ++
  "Make sure GOOGLE_CLIENT_ID, GOOGLE_CLIENT_SECRET, and GOOGLE_REFRESH_TOKEN " ++
  "are set in your .dev.vars file and restart the dev server."

/-- Head of the catch-branch template of `executions.createCalendarEvent`,
up to the interpolated `errorMessage`. -/
def calendarErrHead : String := "❌ Failed to create calendar event: "

/-- Tail of the catch-branch template of `executions.createCalendarEvent`,
after the interpolated `errorMessage`. -/
def calendarErrTail : String :=
  "\n\nPossible causes:\n- Credentials missing from .dev.vars\n" ++
  "- Need to restart dev server after adding credentials\n" ++
  "- Invalid or expired refresh token\n- Google Calendar API not enabled\n" ++
  "- Network error\n\nCheck the server console for more details."

/-- Truth of the credential check
`!env?.GOOGLE_CLIENT_ID || !env?.GOOGLE_CLIENT_SECRET || !env?.GOOGLE_REFRESH_TOKEN`
negated: all three credentials are present. -/
def credsPresent : Option GoogleEnv → Bool
  | some e => e.clientId.isSome && e.clientSecret.isSome && e.refreshToken.isSome
  | none => false

/-- The `executions.createCalendarEvent` function of `tools.ts`. The
whole body is a `try`/`catch`: inside, a missing credential throws
`credentialsMissingMsg`, otherwise the result of the
`createGoogleCalendarEvent(input, env)` call (the `createResult`
parameter, `Except.error` when it throws) is returned; the `catch`
returns the fixed template with the caught error's message interpolated
verbatim. -/
def executions_createCalendarEvent (env : Option GoogleEnv)
    (createResult : Except String String) : Except String String :=
  let body : Except String String :=
    if credsPresent env = false then Except.error credentialsMissingMsg
    else createResult
  match body with
  | Except.ok r => Except.ok r
  | Except.error e => Except.ok (calendarErrHead ++ e ++ calendarErrTail)

/-! ## `Chat.executeTask` (`server.ts`) -/

/-- The message list passed to `this.saveMessages` by
`Chat.executeTask(description, _task)`: the current `this.messages`
followed by one new user message whose single text part is
`"Running scheduled task: " ++ description`. The generated id and the
`createdAt` timestamp are nondeterministic at run time and are passed
in as parameters. -/
def executeTask_savedMessages (messages : List Message) (description : String)
    (newId : String) (now : Nat) : List Message :=
  messages ++
    [{ id := newId
       role := Role.user
       parts := [Part.text ("Running scheduled task: " ++ description)]
       createdAt := some now }]

/-! ## History sanitizer (`cleanupMessages`) -/

/-- A part is a dangling tool invocation when it is a `ToolInvocation`
in a non-terminal state (`input-streaming` or `input-available`). -/
def Part.isDanglingInv : Part → Bool
  | Part.toolInv inv => decide (inv.state ≠ InvState.outputAvailable)
  | Part.text _ => false

/-- A part survives sanitisation when it is not a dangling invocation. -/
def keepPart (p : Part) : Bool := !p.isDanglingInv

/-- Modelled from the spec: the per-message rule of the History
Sanitizer (spec section 4.1) applied to the last message of the history
— the implementation `cleanupMessages` lives in `src/utils.ts`, which is
not part of the provided sources. Every dangling invocation that is not
the last part is dropped; the last part, the single outstanding approval
candidate, is kept whatever its state. -/
def sanitizeParts (ps : List Part) : List Part :=
  match ps.getLast? with
  | none => []
  | some lastP => ps.dropLast.filter keepPart ++ [lastP]

/-- Sanitisation of a message other than the last one: every dangling
invocation is dropped. -/
def cleanMsg (m : Message) : Message :=
  { m with parts := m.parts.filter keepPart }

/-- Sanitisation of the last message of the history. -/
def cleanLast (m : Message) : Message :=
  { m with parts := sanitizeParts m.parts }

/-- A message survives sanitisation when it still has parts. -/
def nonEmptyMsg (m : Message) : Bool := !m.parts.isEmpty

/-- Modelled from the spec: the History Sanitizer `cleanupMessages`
(spec section 4.1) — its implementation lives in `src/utils.ts`, which
is not part of the provided sources. Any tool invocation in a
non-terminal state that is not the last part of the last message is
dropped, and a message left without parts is removed entirely. -/
def cleanupMessages (msgs : List Message) : List Message :=
  (msgs.dropLast.map cleanMsg ++ (msgs.getLast?.map cleanLast).toList).filter
    nonEmptyMsg

/-! ## Approval-gated executor (`processToolCalls`) -/

/-- A human approval decision recorded for a pending confirmed call. -/
inductive Decision
  | approved
  | rejected
deriving DecidableEq, Repr

/-- Registry view of one tool as the executor pass needs it: whether a
decision is required, and the executor bound to the tool (for a
confirmed tool, the entry of the `executions` map). -/
structure ToolDef where
  requiresApproval : Bool
  executor : Option (String → Except String String)

/-- The fixed cancellation marker written as the output of a rejected
confirmed call (spec section 4.3). -/
def cancellationMarker : String := "Error: User denied tool execution"

/-- A tool invocation part is pending when its state is
`input-available` and it has no output yet. -/
def ToolInvocation.isPending (inv : ToolInvocation) : Bool :=
  decide (inv.state = InvState.inputAvailable) && inv.output.isNone

/-- Run a bound executor on a pending invocation: on success the result,
on a thrown error its rendering, becomes the output; either way the
state advances to `output-available` and the invocation is recorded.
With no bound executor the part is left untouched. -/
def runExecutor (exec : Option (String → Except String String))
    (inv : ToolInvocation) : Part × List (String × String) :=
  match exec with
  | none => (Part.toolInv inv, [])
  | some f =>
    match f inv.input with
    | Except.ok r =>
      (Part.toolInv { inv with state := InvState.outputAvailable, output := some r },
       [(inv.toolName, inv.input)])
    | Except.error e =>
      (Part.toolInv { inv with state := InvState.outputAvailable,
                               output := some ("Error: " ++ e) },
       [(inv.toolName, inv.input)])

/-- Modelled from the spec: one document-order step of the
Approval-Gated Executor (spec section 4.3) on a single part — the
implementation `processToolCalls` lives in `src/utils.ts`, which is not
part of the provided sources. Returns the advanced part, the executor
invocations it performed (tool name and input), and whether the pass
halts (an undecided confirmed call pauses the pass). -/
def processPart (registry : String → Option ToolDef)
    (decisions : String → Option Decision) (p : Part) :
    Part × List (String × String) × Bool :=
  match p with
  | Part.text c => (Part.text c, [], false)
  | Part.toolInv inv =>
    if inv.isPending then
      match registry inv.toolName with
      | none => (Part.toolInv inv, [], false)
      | some td =>
        if td.requiresApproval then
          match decisions inv.toolCallId with
          | none => (Part.toolInv inv, [], true)
          | some Decision.rejected =>
            (Part.toolInv { inv with state := InvState.outputAvailable,
                                     output := some cancellationMarker },
             [], false)
          | some Decision.approved =>
            let r := runExecutor td.executor inv
            (r.1, r.2, false)
        else
          let r := runExecutor td.executor inv
          (r.1, r.2, false)
    else (Part.toolInv inv, [], false)

/-- Fold `processPart` over a part list, threading the halted flag:
once the pass halts no further part is advanced. -/
def processParts (registry : String → Option ToolDef)
    (decisions : String → Option Decision) :
    List Part → Bool → List Part × List (String × String) × Bool
  | [], halted => ([], [], halted)
  | p :: ps, halted =>
    if halted then
      let rest := processParts registry decisions ps true
      (p :: rest.1, rest.2.1, rest.2.2)
    else
      let r := processPart registry decisions p
      let rest := processParts registry decisions ps r.2.2
      (r.1 :: rest.1, r.2.1 ++ rest.2.1, rest.2.2)

/-- Modelled from the spec: one pass of the Approval-Gated Executor
`processToolCalls` (spec section 4.3) over the sanitized history — the
implementation lives in `src/utils.ts`, which is not part of the
provided sources. Parts are processed in document order (message order,
then part order); the pass returns the advanced history and the list of
executor invocations it performed. -/
def processToolCalls (registry : String → Option ToolDef)
    (decisions : String → Option Decision) :
    List Message → Bool → List Message × List (String × String)
  | [], _ => ([], [])
  | m :: ms, halted =>
    let r := processParts registry decisions m.parts halted
    let rest := processToolCalls registry decisions ms r.2.2
    ({ m with parts := r.1 } :: rest.1, r.2.1 ++ rest.2)

/-! ## Step loop (`streamText` with `stopWhen: stepCountIs(10)`) -/

/-- The per-turn step budget configured in `server.ts`:
`stopWhen: stepCountIs(10)`. -/
def stepBudget : Nat := 10

/-- One reaction of the model within a step: finish the turn, or
propose a new autonomous tool call (which resolves inline). -/
inductive StepAction
  | finish
  | propose (call : String)
deriving DecidableEq, Repr

/-- Modelled from the spec: the Step Loop Controller (spec section 4.4)
— the loop driver lives in the `ai` library, outside the provided
sources; the repository only configures its budget. Given the remaining
budget, the loop invokes the model on the current history; a proposed
autonomous call resolves inline (appending its resolved record to the
history) and the loop re-enters with one more step consumed; it stops
when the model finishes (second component `true`) or the budget is
exhausted (second component `false`), in the latter case surfacing the
partial state accumulated so far. Returns the final history, whether the
model finished, and the number of steps executed. -/
def stepLoop (model : List String → StepAction) :
    Nat → List String → List String × Bool × Nat
  | 0, history => (history, false, 0)
  | fuel + 1, history =>
    match model history with
    | StepAction.finish => (history, true, 0)
    | StepAction.propose call =>
      let r := stepLoop model fuel (history ++ [call])
      (r.1, r.2.1, r.2.2 + 1)

/-! ## Approval UI (`ToolInvocationCard`) -/

/-- The `APPROVAL` literals imported from the shared module: the two
values a decision submission may carry. Their concrete strings live in
`src/shared.ts`, which is not part of the provided sources, so the card
is modelled uniformly in them. -/
structure Approval where
  yes : String
  no : String
deriving DecidableEq, Repr

/-- A `{toolCallId, result}` record passed to the card's `onSubmit`. -/
structure SubmitPayload where
  toolCallId : String
  result : String
deriving DecidableEq, Repr

/-- The approval controls rendered by `ToolInvocationCard`
(`ToolInvocationCard` source, the block guarded by
`needsConfirmation && toolUIPart.state === "input-available"`): when the
guard holds, a Reject button submitting `APPROVAL.NO` and an Approve
button submitting `APPROVAL.YES`, both bound to the card's `toolCallId`,
in that render order; otherwise no approval control at all. The returned
list is each rendered button's `onSubmit` payload. -/
def approvalButtons (approval : Approval) (state : InvState)
    (needsConfirmation : Bool) (toolCallId : String) : List SubmitPayload :=
  if needsConfirmation && decide (state = InvState.inputAvailable) then
    [⟨toolCallId, approval.no⟩, ⟨toolCallId, approval.yes⟩]
  else []

/-! ## Auxiliary notions used by the theorems -/

/-- The pending tool invocation carried by a part, when there is one. -/
def Part.pendingInv : Part → Option ToolInvocation
  | Part.toolInv inv => if inv.isPending then some inv else none
  | Part.text _ => none

/-- Every pending invocation carried by this part is the given one. -/
def onlyPendingIs (C : ToolInvocation) (p : Part) : Bool :=
  match p.pendingInv with
  | some inv => decide (inv = C)
  | none => true

/-- Resolution of a rejected pending call as a pure part transformer:
a pending invocation advances to `output-available` with the fixed
cancellation marker as output; every other part is untouched. -/
def resolveRejectedPart (p : Part) : Part :=
  match p with
  | Part.toolInv inv =>
    if inv.isPending then
      Part.toolInv { inv with state := InvState.outputAvailable,
                              output := some cancellationMarker }
    else p
  | Part.text c => Part.text c

/-- A sample credential record with all three credentials present. -/
def demoGoogleEnv : GoogleEnv :=
  ⟨some "id", some "secret", some "token"⟩

/-- A sample registry exposing the confirmed `createCalendarEvent` tool,
whose decision-time executor (from the `executions` map) succeeds. -/
def demoRegistry : String → Option ToolDef := fun n =>
  if n = "createCalendarEvent" then
    some ⟨true, some (fun _ => Except.ok "created")⟩
  else none

/-- A sample decision record: the call `"call1"` was rejected. -/
def demoDecisions : String → Option Decision := fun id =>
  if id = "call1" then some Decision.rejected else none

/-- A sample pending confirmed invocation of `createCalendarEvent`. -/
def demoPendingCall : ToolInvocation :=
  ⟨"call1", "createCalendarEvent", InvState.inputAvailable,
   "title: Code Review", none⟩

/-- A sample one-message history holding exactly the pending confirmed
invocation `demoPendingCall` (plus a text part). -/
def demoHistory : List Message :=
  [{ id := "m1"
     role := Role.assistant
     parts := [Part.text "creating the event", Part.toolInv demoPendingCall]
     createdAt := some 0 }]

/-! ## Theorems -/

/-- Claim C4: the registered tool set is exactly partitioned into the
two classes — the tools carrying a bound `execute` function are exactly
`getLocalTime`, `scheduleTask`, `getScheduledTasks` and
`cancelScheduledTask`; the tools without one are exactly
`getWeatherInformation` and `createCalendarEvent`, each with exactly one
entry in the `executions` map; no tool is in both classes and none is in
neither. -/
theorem tools_exact_partition :
    (tools.filter (fun t => t.hasExecute)).map ToolReg.name = autonomousNames ∧
    (tools.filter (fun t => !t.hasExecute)).map ToolReg.name = executionsNames ∧
    (tools.all (fun t => t.hasExecute != decide (t.name ∈ executionsNames))) = true ∧
    (executionsNames.all (fun n => decide (n ∈ tools.map ToolReg.name))) = true ∧
    executionsNames.Nodup := by
  refine ⟨rfl, rfl, by decide, by decide, by decide⟩

/-- Claim C10: the `getLocalTime` executor is a constant function — it
returns `"10am"` for every location string, and two runs on different
locations yield identical results. -/
theorem getLocalTime_execute_constant :
    (∀ location, getLocalTime_execute location = "10am") ∧
    ∀ l1 l2, getLocalTime_execute l1 = getLocalTime_execute l2 :=
  ⟨fun _ => rfl, fun _ _ => rfl⟩

/-- Claim C9: `Chat.executeTask` is append-only at its `saveMessages`
call site — the saved list is the prior messages followed by exactly one
new user message whose single text part is
`"Running scheduled task: " ++ description`; every prior message is
unchanged. -/
theorem executeTask_appends_one_user_message (M : List Message)
    (d newId : String) (now : Nat) :
    executeTask_savedMessages M d newId now =
      M ++ [{ id := newId
              role := Role.user
              parts := [Part.text ("Running scheduled task: " ++ d)]
              createdAt := some now }] ∧
    (executeTask_savedMessages M d newId now).take M.length = M ∧
    (executeTask_savedMessages M d newId now).length = M.length + 1 := by
  refine ⟨rfl, ?_, by simp [executeTask_savedMessages]⟩
  simp [executeTask_savedMessages]

/-- Claim C6: a `"no-schedule"` schedule input is handled as a
recoverable validation failure — `scheduleTask`'s executor returns the
string `"Not a valid schedule input"` as its own output, never calls
`agent.schedule` (invocation count 0), and no exception escapes (the
result is `Except.ok`, the `throwError` helper in particular is never
reached). -/
theorem scheduleTask_noSchedule_recoverable (dueDate : Option String)
    (whenArg : ScheduleInput) (description : String)
    (scheduleResult : Except String Unit)
    (h : whenArg.type = "no-schedule") :
    scheduleTask_execute dueDate whenArg description scheduleResult =
      (Except.ok "Not a valid schedule input", 0) := by
  simp [scheduleTask_execute, h]

/-- Witness for C6 at a concrete `"no-schedule"` input. -/
theorem scheduleTask_noSchedule_recoverable_witness :
    scheduleTask_execute none ⟨"no-schedule", none, none, none⟩ "remind me"
        (Except.ok ()) = (Except.ok "Not a valid schedule input", 0) :=
  scheduleTask_noSchedule_recoverable none ⟨"no-schedule", none, none, none⟩
    "remind me" (Except.ok ()) rfl

/-- Claim C5: a failing bound executor is data, not a pipeline fault —
whenever the underlying operation throws, the executors `scheduleTask`,
`cancelScheduledTask`, `getScheduledTasks` and
`executions.createCalendarEvent` return (`Except.ok`) a formatted error
string as the tool's output instead of letting the exception escape. -/
theorem executors_capture_thrown_errors (dueDate : Option String)
    (whenArg : ScheduleInput) (d taskId e : String) (env : Option GoogleEnv) :
    ((whenArg.type = "scheduled" ∨ whenArg.type = "delayed" ∨
        whenArg.type = "cron") →
      (scheduleTask_execute dueDate whenArg d (Except.error e)).1 =
        Except.ok ("Error scheduling task: Error: " ++ e)) ∧
    cancelScheduledTask_execute taskId (Except.error e) =
      Except.ok ("Error canceling task " ++ taskId ++ ": Error: " ++ e) ∧
    getScheduledTasks_execute (Except.error e) =
      Except.ok (Sum.inl ("Error listing scheduled tasks: Error: " ++ e)) ∧
    (credsPresent env = true →
      executions_createCalendarEvent env (Except.error e) =
        Except.ok (calendarErrHead ++ e ++ calendarErrTail)) := by
  refine ⟨?_, rfl, rfl, ?_⟩
  · rintro (h | h | h) <;> simp [scheduleTask_execute, h]
  · intro h
    simp [executions_createCalendarEvent, h]

/-- Witness for C5 at concrete throwing operations. -/
theorem executors_capture_thrown_errors_witness :
    (scheduleTask_execute none ⟨"delayed", none, some 5, none⟩ "task"
        (Except.error "boom")).1 =
      Except.ok ("Error scheduling task: Error: " ++ "boom") ∧
    executions_createCalendarEvent (some demoGoogleEnv) (Except.error "boom") =
      Except.ok (calendarErrHead ++ "boom" ++ calendarErrTail) :=
  ⟨(executors_capture_thrown_errors none ⟨"delayed", none, some 5, none⟩ "task"
      "x" "boom" (some demoGoogleEnv)).1 (Or.inr (Or.inl rfl)),
   (executors_capture_thrown_errors none ⟨"delayed", none, some 5, none⟩ "task"
      "x" "boom" (some demoGoogleEnv)).2.2.2 rfl⟩

set_option maxRecDepth 20000 in
/-- Counterexample to claim C8 as stated: at the concrete internal error
text `"boom"`, the user-visible output of `executions.createCalendarEvent`
contains `"boom"` verbatim (it appears right after the fixed head of the
catch template), so raw internal error detail is surfaced to the end
user verbatim. -/
theorem calendar_output_contains_error_verbatim :
    executions_createCalendarEvent (some demoGoogleEnv) (Except.error "boom") =
      Except.ok (calendarErrHead ++ "boom" ++ calendarErrTail) ∧
    ((calendarErrHead ++ "boom" ++ calendarErrTail).drop
        calendarErrHead.length).take 4 = "boom" := by
  refine ⟨rfl, by decide⟩

/-- Claim C8 amended: for every exception raised inside
`executions.createCalendarEvent` (with credentials present) or
`cancelScheduledTask`, the user-visible output is a bounded descriptive
template that embeds the internal error text verbatim. -/
theorem executor_outputs_embed_error_text (env : Option GoogleEnv)
    (taskId e : String) (h : credsPresent env = true) :
    executions_createCalendarEvent env (Except.error e) =
      Except.ok (calendarErrHead ++ e ++ calendarErrTail) ∧
    cancelScheduledTask_execute taskId (Except.error e) =
      Except.ok ("Error canceling task " ++ taskId ++ ": Error: " ++ e) := by
  refine ⟨?_, rfl⟩
  simp [executions_createCalendarEvent, h]

/-- Witness for amended C8 at a concrete environment and error. -/
theorem executor_outputs_embed_error_text_witness :
    executions_createCalendarEvent (some demoGoogleEnv) (Except.error "oops") =
      Except.ok (calendarErrHead ++ "oops" ++ calendarErrTail) ∧
    cancelScheduledTask_execute "t1" (Except.error "oops") =
      Except.ok ("Error canceling task " ++ "t1" ++ ": Error: " ++ "oops") :=
  executor_outputs_embed_error_text (some demoGoogleEnv) "t1" "oops" rfl

/-- Helper: under a model that always proposes a new autonomous call,
the step loop consumes its whole fuel, never finishes on its own, and
the surfaced history grows by exactly one resolved call per step. -/
theorem stepLoop_of_always_proposes (model : List String → StepAction)
    (h : ∀ hist, ∃ c, model hist = StepAction.propose c) :
    ∀ fuel H, (stepLoop model fuel H).2.2 = fuel ∧
      (stepLoop model fuel H).2.1 = false ∧
      (stepLoop model fuel H).1.length = H.length + fuel := by
  intro fuel
  induction fuel with
  | zero => intro H; simp [stepLoop]
  | succ n ih =>
    intro H
    obtain ⟨c, hc⟩ := h H
    have hrec := ih (H ++ [c])
    simp [stepLoop, hc, hrec.1, hrec.2.1, hrec.2.2]
    omega

/-- Claim C3: the step loop is bounded by the per-turn step budget of 10
(`stopWhen: stepCountIs(10)`): under every model that always proposes a
new autonomous tool call, the turn terminates after exactly 10 steps
(finished flag `false`, so exhaustion force-terminated it) and surfaces
the partial state accumulated so far (one resolved call per step). -/
theorem stepLoop_terminates_at_budget (model : List String → StepAction)
    (H : List String) (h : ∀ hist, ∃ c, model hist = StepAction.propose c) :
    (stepLoop model stepBudget H).2.2 = 10 ∧
    (stepLoop model stepBudget H).2.1 = false ∧
    (stepLoop model stepBudget H).1.length = H.length + 10 :=
  stepLoop_of_always_proposes model h stepBudget H

/-- Witness for C3: a concrete model that always proposes the same
autonomous call stops after exactly 10 steps from an empty history. -/
theorem stepLoop_terminates_at_budget_witness :
    (stepLoop (fun _ => StepAction.propose "tick") stepBudget []).2.2 = 10 ∧
    (stepLoop (fun _ => StepAction.propose "tick") stepBudget []).2.1 = false ∧
    (stepLoop (fun _ => StepAction.propose "tick") stepBudget []).1.length =
      List.length ([] : List String) + 10 :=
  stepLoop_terminates_at_budget (fun _ => StepAction.propose "tick") []
    (fun _ => ⟨"tick", rfl⟩)

/-- Claim C7: for a pending confirmed invocation shown in state
`input-available`, the approval card offers exactly two controls — a
Reject button submitting the literal `APPROVAL.NO` and an Approve button
submitting the literal `APPROVAL.YES`, both bound to that invocation's
`toolCallId` — and in every other state (or without the confirmation
requirement) it offers no approval control, so nothing else is ever
submitted and the controls exist only while the state is
`input-available`. -/
theorem approvalCard_submits_exact_literals (approval : Approval)
    (st : InvState) (nc : Bool) (tid : String) :
    (nc = true ∧ st = InvState.inputAvailable →
      approvalButtons approval st nc tid =
        [⟨tid, approval.no⟩, ⟨tid, approval.yes⟩]) ∧
    (¬(nc = true ∧ st = InvState.inputAvailable) →
      approvalButtons approval st nc tid = []) ∧
    ∀ p ∈ approvalButtons approval st nc tid,
      p.toolCallId = tid ∧ (p.result = approval.yes ∨ p.result = approval.no) ∧
      nc = true ∧ st = InvState.inputAvailable := by
  refine ⟨?_, ?_, ?_⟩
  · rintro ⟨h1, h2⟩
    simp [approvalButtons, h1, h2]
  · intro h
    rcases nc with _ | _ <;> rcases st with _ | _ | _
    case true.inputAvailable => exact absurd ⟨rfl, rfl⟩ h
    all_goals rfl
  · intro p hp
    rcases nc with _ | _ <;> rcases st with _ | _ | _ <;>
      simp [approvalButtons] at hp
    rcases hp with h | h <;> simp [h]

/-- Witness for C7: concrete card renders at both a pending confirmed
state and a terminal state. -/
theorem approvalCard_submits_exact_literals_witness :
    approvalButtons ⟨"YES", "NO"⟩ InvState.inputAvailable true "call1" =
      [⟨"call1", "NO"⟩, ⟨"call1", "YES"⟩] ∧
    approvalButtons ⟨"YES", "NO"⟩ InvState.outputAvailable true "call1" = [] :=
  ⟨(approvalCard_submits_exact_literals ⟨"YES", "NO"⟩ InvState.inputAvailable
      true "call1").1 ⟨rfl, rfl⟩,
   (approvalCard_submits_exact_literals ⟨"YES", "NO"⟩ InvState.outputAvailable
      true "call1").2.1 (by simp)⟩

/-- Helper: sanitising a part list ending in `l` keeps `l` and filters
the rest. -/
theorem sanitizeParts_concat (i : List Part) (l : Part) :
    sanitizeParts (i ++ [l]) = i.filter keepPart ++ [l] := by
  simp [sanitizeParts, List.getLast?_concat, List.dropLast_concat]

/-- Helper: `all` restricts along `dropLast`. -/
theorem all_dropLast {α : Type} (p : α → Bool) {l : List α}
    (h : l.all p = true) : l.dropLast.all p = true := by
  rw [List.all_eq_true] at h ⊢
  intro a ha
  exact h a ((List.dropLast_sublist l).subset ha)

/-- Helper: a message whose parts all survive filtering is fixed by
`cleanMsg`. -/
theorem cleanMsg_of_all {m : Message} (h : m.parts.all keepPart = true) :
    cleanMsg m = m := by
  have hp : m.parts.filter keepPart = m.parts :=
    List.filter_eq_self.mpr (List.all_eq_true.mp h)
  simp [cleanMsg, hp]

/-- Helper: a nonempty message whose non-final parts all survive
filtering is fixed by `cleanLast`. -/
theorem cleanLast_of {m : Message} (h1 : m.parts ≠ [])
    (h2 : m.parts.dropLast.all keepPart = true) : cleanLast m = m := by
  have hp : sanitizeParts m.parts = m.parts := by
    rcases List.eq_nil_or_concat m.parts with h0 | ⟨i, l, hil⟩
    · exact absurd h0 h1
    · rw [List.concat_eq_append] at hil
      have h2i : i.all keepPart = true := by
        rw [hil, List.dropLast_concat] at h2
        exact h2
      rw [hil, sanitizeParts_concat]
      congr 1
      exact List.filter_eq_self.mpr (List.all_eq_true.mp h2i)
  simp [cleanLast, hp]

/-- Helper: a message with a part survives the emptiness filter. -/
theorem nonEmptyMsg_of {m : Message} (h : m.parts ≠ []) :
    nonEmptyMsg m = true := by
  simp [nonEmptyMsg, h]

/-- Helper: the sanitizer is the identity on an already-clean history,
presented as a nonempty list whose non-final messages are nonempty with
no dangling invocation at all and whose final message is nonempty with
no dangling invocation before its last part. -/
theorem cleanup_of_clean (J : List Message) (M : Message)
    (hJ : ∀ m ∈ J, m.parts ≠ [] ∧ m.parts.all keepPart = true)
    (hM1 : M.parts ≠ []) (hM2 : M.parts.dropLast.all keepPart = true) :
    cleanupMessages (J ++ [M]) = J ++ [M] := by
  have hstep : cleanupMessages (J ++ [M]) =
      (J.map cleanMsg ++ [cleanLast M]).filter nonEmptyMsg := by
    simp [cleanupMessages, List.dropLast_concat, List.getLast?_concat]
  rw [hstep]
  have hmap : J.map cleanMsg = J := by
    have := List.map_congr_left (fun m hm => cleanMsg_of_all (hJ m hm).2)
    rw [this]
    exact List.map_id J
  rw [hmap, cleanLast_of hM1 hM2]
  apply List.filter_eq_self.mpr
  intro m hm
  rcases List.mem_append.mp hm with h | h
  · exact nonEmptyMsg_of (hJ m h).1
  · rw [List.mem_singleton.mp h]
    exact nonEmptyMsg_of hM1

/-- Helper: every member of the sanitized image of non-final messages is
nonempty and free of dangling invocations. -/
theorem mem_cleanupCore {I : List Message} {m : Message}
    (h : m ∈ (I.map cleanMsg).filter nonEmptyMsg) :
    m.parts ≠ [] ∧ m.parts.all keepPart = true := by
  have h1 := List.of_mem_filter h
  have h2 := List.mem_of_mem_filter h
  obtain ⟨a, _, rfl⟩ := List.mem_map.mp h2
  constructor
  · intro hcontra
    rw [nonEmptyMsg, hcontra] at h1
    simp at h1
  · rw [List.all_eq_true]
    intro p hp
    exact List.of_mem_filter (show p ∈ a.parts.filter keepPart from hp)

/-- Claim C2: the history sanitizer is idempotent — for every message
list `H`, `cleanupMessages (cleanupMessages H) = cleanupMessages H`. -/
theorem cleanupMessages_idempotent (H : List Message) :
    cleanupMessages (cleanupMessages H) = cleanupMessages H := by
  rcases List.eq_nil_or_concat H with h0 | ⟨I, L, hIL⟩
  · subst h0; rfl
  rw [List.concat_eq_append] at hIL
  subst hIL
  by_cases hL : L.parts = []
  · have hstep : cleanupMessages (I ++ [L]) =
        (I.map cleanMsg).filter nonEmptyMsg := by
      simp [cleanupMessages, List.dropLast_concat, List.getLast?_concat,
            cleanLast, hL, sanitizeParts, nonEmptyMsg]
    rw [hstep]
    rcases List.eq_nil_or_concat ((I.map cleanMsg).filter nonEmptyMsg) with
      h2 | ⟨J, M, hJM⟩
    · rw [h2]; rfl
    rw [List.concat_eq_append] at hJM
    rw [hJM]
    have hMmem : M ∈ (I.map cleanMsg).filter nonEmptyMsg := by
      rw [hJM]
      exact List.mem_append_right _ (List.mem_singleton_self M)
    apply cleanup_of_clean
    · intro m hm
      apply mem_cleanupCore
      rw [hJM]
      exact List.mem_append_left _ hm
    · exact (mem_cleanupCore hMmem).1
    · exact all_dropLast keepPart (mem_cleanupCore hMmem).2
  · obtain ⟨i, l, hil⟩ := (List.eq_nil_or_concat L.parts).resolve_left hL
    rw [List.concat_eq_append] at hil
    have hclp : (cleanLast L).parts = i.filter keepPart ++ [l] := by
      simp [cleanLast, hil, sanitizeParts_concat]
    have hclne : (cleanLast L).parts ≠ [] := by
      rw [hclp]
      exact (List.append_ne_nil_of_right_ne_nil _ (by simp))
    have hstep : cleanupMessages (I ++ [L]) =
        (I.map cleanMsg).filter nonEmptyMsg ++ [cleanLast L] := by
      simp [cleanupMessages, List.dropLast_concat, List.getLast?_concat,
            List.filter_append, nonEmptyMsg_of hclne]
    rw [hstep]
    apply cleanup_of_clean
    · intro m hm
      exact mem_cleanupCore hm
    · exact hclne
    · rw [hclp, List.dropLast_concat, List.all_eq_true]
      intro p hp
      exact List.of_mem_filter hp

/-- Helper: on a part whose only possible pending invocation is a
confirmed call with a recorded REJECTED decision, one executor step
resolves it to the cancellation marker without halting and without any
executor invocation. -/
theorem processPart_rejected (registry : String → Option ToolDef)
    (decisions : String → Option Decision) (p : Part)
    (h : ∀ inv, p.pendingInv = some inv →
      ∃ td, registry inv.toolName = some td ∧ td.requiresApproval = true ∧
        decisions inv.toolCallId = some Decision.rejected) :
    processPart registry decisions p = (resolveRejectedPart p, [], false) := by
  cases p with
  | text c => rfl
  | toolInv inv =>
    by_cases hp : inv.isPending = true
    · obtain ⟨td, htd, happ, hdec⟩ := h inv (by simp [Part.pendingInv, hp])
      simp [processPart, resolveRejectedPart, hp, htd, happ, hdec]
    · simp [processPart, resolveRejectedPart, hp]

/-- Helper: `processPart_rejected` lifted over a part list. -/
theorem processParts_rejected (registry : String → Option ToolDef)
    (decisions : String → Option Decision) (ps : List Part)
    (h : ∀ p ∈ ps, ∀ inv, p.pendingInv = some inv →
      ∃ td, registry inv.toolName = some td ∧ td.requiresApproval = true ∧
        decisions inv.toolCallId = some Decision.rejected) :
    processParts registry decisions ps false =
      (ps.map resolveRejectedPart, [], false) := by
  induction ps with
  | nil => rfl
  | cons p ps ih =>
    have hp := processPart_rejected registry decisions p
      (h p (List.mem_cons_self p ps))
    have hrest := ih (fun q hq => h q (List.mem_cons_of_mem p hq))
    simp [processParts, hp, hrest]

/-- Helper: `processPart_rejected` lifted over a whole history. -/
theorem processToolCalls_rejected (registry : String → Option ToolDef)
    (decisions : String → Option Decision) (msgs : List Message)
    (h : ∀ m ∈ msgs, ∀ p ∈ m.parts, ∀ inv, p.pendingInv = some inv →
      ∃ td, registry inv.toolName = some td ∧ td.requiresApproval = true ∧
        decisions inv.toolCallId = some Decision.rejected) :
    processToolCalls registry decisions msgs false =
      (msgs.map (fun m => { m with parts := m.parts.map resolveRejectedPart }),
       []) := by
  induction msgs with
  | nil => rfl
  | cons m ms ih =>
    have hm := processParts_rejected registry decisions m.parts
      (h m (List.mem_cons_self m ms))
    have hrest := ih (fun m2 h2 => h m2 (List.mem_cons_of_mem m h2))
    simp [processToolCalls, hm, hrest]

/-- Claim C1: for a history whose only pending invocation is the
confirmed call `C` with a recorded REJECTED decision, one pass of the
approval-gated executor advances exactly the pending invocation —
setting its state to `output-available` with the fixed cancellation
marker as output — leaves everything else unchanged, and performs zero
executor invocations (in particular `C`'s bound executor is never
invoked). -/
theorem rejected_confirmed_call_cancelled (registry : String → Option ToolDef)
    (decisions : String → Option Decision) (H : List Message)
    (C : ToolInvocation) (td : ToolDef)
    (hC : C.isPending = true)
    (hmem : H.any (fun m => m.parts.any
      (fun p => decide (p = Part.toolInv C))) = true)
    (honly : H.all (fun m => m.parts.all (onlyPendingIs C)) = true)
    (hreg : registry C.toolName = some td)
    (happ : td.requiresApproval = true)
    (hdec : decisions C.toolCallId = some Decision.rejected) :
    processToolCalls registry decisions H false =
      (H.map (fun m => { m with parts := m.parts.map resolveRejectedPart }),
       []) ∧
    ∃ m ∈ (processToolCalls registry decisions H false).1,
      Part.toolInv { C with state := InvState.outputAvailable,
                            output := some cancellationMarker } ∈ m.parts := by
  have hcond : ∀ m ∈ H, ∀ p ∈ m.parts, ∀ inv, p.pendingInv = some inv →
      ∃ td2, registry inv.toolName = some td2 ∧ td2.requiresApproval = true ∧
        decisions inv.toolCallId = some Decision.rejected := by
    intro m hm p hp inv hinv
    have h1 := List.all_eq_true.mp
      (List.all_eq_true.mp honly m hm) p hp
    rw [onlyPendingIs, hinv] at h1
    have hinvC : inv = C := of_decide_eq_true h1
    subst hinvC
    exact ⟨td, hreg, happ, hdec⟩
  have hmain := processToolCalls_rejected registry decisions H hcond
  refine ⟨hmain, ?_⟩
  obtain ⟨m, hm, hpm⟩ := List.any_eq_true.mp hmem
  obtain ⟨p, hp, hpe⟩ := List.any_eq_true.mp hpm
  have hpC : p = Part.toolInv C := of_decide_eq_true hpe
  subst hpC
  refine ⟨{ m with parts := m.parts.map resolveRejectedPart }, ?_, ?_⟩
  · rw [hmain]
    exact List.mem_map_of_mem _ hm
  · have : resolveRejectedPart (Part.toolInv C) =
        Part.toolInv { C with state := InvState.outputAvailable,
                              output := some cancellationMarker } := by
      simp [resolveRejectedPart, hC]
    rw [show (({ m with parts := m.parts.map resolveRejectedPart } :
        Message).parts) = m.parts.map resolveRejectedPart from rfl, ← this]
    exact List.mem_map_of_mem resolveRejectedPart hp

/-- Witness for C1: the concrete one-message history `demoHistory`, whose
single pending confirmed call `demoPendingCall` was rejected, resolves
to the cancellation marker with zero executor invocations. -/
theorem rejected_confirmed_call_cancelled_witness :
    processToolCalls demoRegistry demoDecisions demoHistory false =
      (demoHistory.map
        (fun m => { m with parts := m.parts.map resolveRejectedPart }),
       []) ∧
    ∃ m ∈ (processToolCalls demoRegistry demoDecisions demoHistory false).1,
      Part.toolInv
        { demoPendingCall with
          state := InvState.outputAvailable
          output := some cancellationMarker } ∈ m.parts :=
  rejected_confirmed_call_cancelled demoRegistry demoDecisions demoHistory
    demoPendingCall ⟨true, some (fun _ => Except.ok "created")⟩
    (by decide) (by decide) (by decide) rfl rfl rfl

end CfAiSandy
